import Mathlib

/-
Verification of the gres crate: a shallow embedding of the progress-line
renderer in src/cli.rs and the bounded-percentage helper in src/lib.rs.

Machine integers are modelled as Nat with explicit wrapping or saturation
where the source wraps or saturates (usize is taken to be 64 bits wide, the
width of every Tier-1 Rust target).  Terminal I/O is modelled as a trace of
emitted commands; a Rust panic (expect / unwrap on a violated internal
invariant) is modelled as Option.none.
-/

namespace Gres

/-- Largest usize value (64-bit target). -/
def USIZEMAX : Nat := 2 ^ 64 - 1

/-- Number of usize values; wrapping arithmetic is arithmetic mod this. -/
def USIZE : Nat := 2 ^ 64

/-- Model of Rust usize::saturating_mul. -/
def saturating_mul (a b : Nat) : Nat := min (a * b) USIZEMAX

/-- Model of Rust usize::checked_div: none on division by zero. -/
def checked_div (a b : Nat) : Option Nat := if b = 0 then none else some (a / b)

/-- Model of Percent::fraction (src/lib.rs lines 52-54):
`Percent::try_from(num.saturating_mul(100).checked_div(denom).unwrap_or(100)).unwrap_or(Percent::MAX)`.
The final try_from admits values in 0..=100 and otherwise falls back to
Percent::MAX = 100.  The result is the numeric value of the percentage. -/
def Percent.fraction (num denom : Nat) : Nat :=
  let v := (checked_div (saturating_mul num 100) denom).getD 100
  if v ≤ 100 then v else 100

/-- One displayed line of the CLI (struct LineState in src/cli.rs).
Ids are usize values, kept as Nat. -/
structure LineState where
  id : Nat
  finalized : Bool
  text : String
deriving DecidableEq

/-- The registry guarded by the mutex (struct State in src/cli.rs).
`notifications` counts the finalization events broadcast on the
finalize_notifier channel. -/
structure State where
  lines : List LineState
  selected_line : Option Nat
  new_line_id : Nat
  notifications : Nat
deriving DecidableEq

/-- Terminal commands issued through crossterm::execute!. -/
inductive Cmd where
  | moveToPreviousLine (n : Nat)
  | moveToColumn (n : Nat)
  | printText (s : String)
  | clearUntilNewLine
  | moveToNextLine (n : Nat)
deriving DecidableEq

/-- The carriage-return line-feed literal printed by the source. -/
def crlf : String := "\r\n"

/-- Model of `lines.iter().position(|line| line.id == id)`: index of the
first line with the given id. -/
def findLine : List LineState → Nat → Option Nat
  | [], _ => none
  | l :: ls, id => if l.id = id then some 0 else (findLine ls id).map (· + 1)

/-- Model of `lines.iter().position(|line| line.finalized)`: index of the
first finalized line. -/
def firstFinalized : List LineState → Option Nat
  | [] => none
  | l :: ls => if l.finalized then some 0 else (firstFinalized ls).map (· + 1)

/-- The cursor row resolution inside State::update_line:
`self.selected_line.map_or_else(|| self.lines.len(), |sel| position(sel).expect(..))`.
none models the `expect("line not found")` panic. -/
def selectedIdx (s : State) : Option Nat :=
  match s.selected_line with
  | none => some s.lines.length
  | some sel => findLine s.lines sel

/-- Model of State::update_line (src/cli.rs lines 35-66).  Returns the
updated state and the trace of terminal commands; none models a panic. -/
def update_line (s : State) (id : Nat) : Option (State × List Cmd) :=
  match findLine s.lines id with
  | none => none
  | some self_idx =>
    match s.lines[self_idx]? with
    | none => none
    | some line =>
      match selectedIdx s with
      | none => none
      | some selected_idx =>
        if self_idx < selected_idx then
          some ({ s with selected_line := some id },
            [Cmd.moveToPreviousLine (selected_idx - self_idx),
             Cmd.printText line.text, Cmd.clearUntilNewLine])
        else if selected_idx < self_idx then
          some ({ s with selected_line := some id },
            [Cmd.moveToNextLine (self_idx - selected_idx),
             Cmd.printText line.text, Cmd.clearUntilNewLine])
        else
          some ({ s with selected_line := some id },
            [Cmd.moveToColumn 0,
             Cmd.printText line.text, Cmd.clearUntilNewLine])

/-- Model of LineHandle::replace (src/cli.rs lines 263-267): set the text of
the first line with this id, then re-render it via update_line. -/
def replace (s : State) (id : Nat) (new_text : String) : Option (State × List Cmd) :=
  match findLine s.lines id with
  | none => none
  | some i =>
    match s.lines[i]? with
    | none => none
    | some l => update_line { s with lines := s.lines.set i { l with text := new_text } } id

/-- Model of LineHandle::drop_async (src/cli.rs lines 272-277): set the
finalized flag of the first line with this id and broadcast one
finalization event. -/
def LineHandle.drop_async (s : State) (id : Nat) : Option State :=
  match findLine s.lines id with
  | none => none
  | some i =>
    match s.lines[i]? with
    | none => none
    | some l => some { s with lines := s.lines.set i { l with finalized := true },
                              notifications := s.notifications + 1 }

/-- Model of the Drop impl for LineHandle (src/cli.rs lines 280-293), the
synchronous release path: same mutation, acquired via blocking_lock. -/
def LineHandle.dropSync (s : State) (id : Nat) : Option State :=
  match findLine s.lines id with
  | none => none
  | some i =>
    match s.lines[i]? with
    | none => none
    | some l => some { s with lines := s.lines.set i { l with finalized := true },
                              notifications := s.notifications + 1 }

/-- Outcome of one iteration of the space-reclamation loop in Cli::new_line
(src/cli.rs lines 103-148).  The constructor records which branch ran:
room (break), evicted (lines 110-130), relocated (lines 131-139), or wait
(lines 140-147, subscribe and suspend). -/
inductive StepResult where
  | room (s : State)
  | evicted (s : State) (cmds : List Cmd)
  | relocated (s : State) (cmds : List Cmd)
  | wait (s : State)
deriving DecidableEq

/-- The for-loop of the relocation branch: run update_line on each id in
order, concatenating the emitted command traces. -/
def renderAll : State → List Nat → Option (State × List Cmd)
  | s, [] => some (s, [])
  | s, id :: rest =>
    match update_line s id with
    | none => none
    | some (s1, cmds1) =>
      match renderAll s1 rest with
      | none => none
      | some (s2, cmds2) => some (s2, cmds1 ++ cmds2)

/-- The relocation / wait half of a loop iteration, reached when the topmost
line exists and is not finalized, or when there are no lines at all. -/
def relocateOrWait (s : State) : Option StepResult :=
  match firstFinalized s.lines with
  | none => some (.wait s)
  | some idx =>
    match s.lines[idx]? with
    | none => none
    | some line =>
      match renderAll { s with lines := line :: s.lines.eraseIdx idx }
          (((line :: s.lines.eraseIdx idx).take (idx + 1)).map (fun l => l.id)) with
      | none => none
      | some (s2, cmds) => some (.relocated s2 cmds)

/-- One iteration of the space-reclamation loop of Cli::new_line, given the
terminal height read at the top of the iteration.  The leading guard models
`u16::try_from(state.lines.len()).expect("terminal too large")`. -/
def new_line_step (height : Nat) (s : State) : Option StepResult :=
  if 65535 < s.lines.length then none
  else if s.lines.length < height then some (.room s)
  else
    match s.lines[0]? with
    | none => relocateOrWait s
    | some line0 =>
      if line0.finalized then
        if s.selected_line = some line0.id then
          match s.lines[1]? with
          | some next =>
            some (.evicted { s with selected_line := some next.id, lines := s.lines.tail }
                  [Cmd.moveToNextLine 1])
          | none =>
            some (.evicted { s with selected_line := none, lines := s.lines.tail }
                  [Cmd.printText crlf])
        else
          some (.evicted { s with lines := s.lines.tail } [])
      else relocateOrWait s

/-- Result of running Cli::new_line to its first terminal point:
either the loop broke and the line was created (ok), or the caller reached
the suspension point of step 3 (suspended), or the fuel given to the model
of the unbounded loop ran out (noFuel, never reached with enough fuel). -/
inductive NewLineResult where
  | ok (s : State) (cmds : List Cmd) (id : Nat)
  | suspended (s : State) (cmds : List Cmd)
  | noFuel
deriving DecidableEq

/-- Outcome of the whole reclamation loop, accumulating command traces. -/
inductive LoopResult where
  | room (s : State) (cmds : List Cmd)
  | suspendedAt (s : State) (cmds : List Cmd)
  | fuelOut
deriving DecidableEq

/-- The reclamation loop of Cli::new_line, driven with fuel (the Rust loop
is unbounded; continue-edges consume one unit). -/
def makeRoom (height : Nat) : Nat → State → List Cmd → Option LoopResult
  | 0, _, _ => some .fuelOut
  | fuel + 1, s, acc =>
    match new_line_step height s with
    | none => none
    | some (.room s1) => some (.room s1 acc)
    | some (.evicted s1 cmds) => makeRoom height fuel s1 (acc ++ cmds)
    | some (.relocated s1 cmds) => makeRoom height fuel s1 (acc ++ cmds)
    | some (.wait s1) => some (.suspendedAt s1 acc)

/-- Model of usize wrapping_add 1. -/
def wrapInc (n : Nat) : Nat := (n + 1) % USIZE

/-- The id-allocation loop of Cli::new_line (src/cli.rs lines 150-156),
driven with fuel.  The source keeps the invariant new_line_id = wrapInc id
across iterations, so only the current candidate id is threaded here; the
returned pair is (chosen id, new value of new_line_id). -/
def allocGo (lines : List LineState) : Nat → Nat → Option (Nat × Nat)
  | 0, _ => none
  | fuel + 1, id =>
    if lines.any (fun l => l.id == id) then allocGo lines fuel (wrapInc id)
    else some (id, wrapInc id)

/-- Cli::new_line id allocation: lines.length + 1 units of fuel always
suffice (proved below), matching termination of the source while-loop. -/
def allocId (lines : List LineState) (counter : Nat) : Option (Nat × Nat) :=
  allocGo lines (lines.length + 1) counter

/-- The cursor repositioning after the loop (src/cli.rs lines 158-168):
if a line is selected, move the cursor to the end of the managed lines and
print a line break; none models the `expect("line not found")` panic. -/
def cursorToEnd (s : State) : Option (State × List Cmd) :=
  match s.selected_line with
  | none => some (s, [])
  | some sel =>
    match findLine s.lines sel with
    | none => none
    | some selected_idx =>
      some ({ s with selected_line := none },
        [Cmd.moveToNextLine (s.lines.length - 1 - selected_idx), Cmd.printText crlf])

/-- Model of Cli::new_line (src/cli.rs lines 101-176): reclamation loop,
id allocation, cursor repositioning, push of the new line, and the final
update_line.  `height` is the terminal height read by the loop. -/
def new_line (fuel height : Nat) (s : State) (text : String) : Option NewLineResult := do
  match ← makeRoom height fuel s [] with
  | .fuelOut => some .noFuel
  | .suspendedAt s1 cmds => some (.suspended s1 cmds)
  | .room s1 cmds0 => do
    let (id, counter) ← allocId s1.lines s1.new_line_id
    let s2 : State := { s1 with new_line_id := counter }
    let (s3, cmds1) ← cursorToEnd s2
    let s4 : State := { s3 with lines := s3.lines ++ [{ id := id, finalized := false, text := text }] }
    let (s5, cmds2) ← update_line s4 id
    some (.ok s5 (cmds0 ++ cmds1 ++ cmds2) id)

/-- Result of tokio broadcast Receiver::recv as matched at
src/cli.rs lines 143-146. -/
inductive RecvResult where
  | ok
  | lagged (missed : Nat)
  | closed
deriving DecidableEq

/-- What the waiting caller does on wake. -/
inductive WakeBehavior where
  | retry
  | abort
deriving DecidableEq

/-- The match on the recv result at src/cli.rs lines 143-146:
Ok and Lagged continue the loop, Closed panics. -/
def handleWake : RecvResult → WakeBehavior
  | .ok => .retry
  | .lagged _ => .retry
  | .closed => .abort

/-- Error value standing for a failed crossterm call. -/
inductive TermError where
  | err
deriving DecidableEq

/-- The registry constructed by Cli::new: empty lines, no selected line,
id counter 0, no events broadcast yet. -/
def initialState : State :=
  { lines := [], selected_line := none, new_line_id := 0, notifications := 0 }

/-- Model of Cli::new (src/cli.rs lines 83-94).  `enableRaw` is the outcome
of the enable_raw_mode() call; `heightRes` is the outcome a terminal-height
query would have in the same environment.  The body consults only
`enableRaw`, exactly as the source does (no terminal-size call appears in
Cli::new; the height is read inside each new_line iteration instead). -/
def cliNew (enableRaw : Except TermError Unit) (_heightRes : Except TermError Nat) :
    Except TermError State :=
  match enableRaw with
  | .error e => .error e
  | .ok _ => .ok initialState

/-- Text of scenario line A. -/
def textA : String := "A"

/-- Text of scenario line B. -/
def textB : String := "B"

/-- Text of scenario line C. -/
def textC : String := "C"

/-- Text of scenario line D. -/
def textD : String := "D"

/-- Scenario line A: active. -/
def lineA : LineState := { id := 0, finalized := false, text := textA }

/-- Scenario line B: finalized. -/
def lineB : LineState := { id := 1, finalized := true, text := textB }

/-- Scenario line C: active. -/
def lineC : LineState := { id := 2, finalized := false, text := textC }

/-- Scenario line D as created by new_line. -/
def lineD : LineState := { id := 3, finalized := false, text := textD }

/-- Scenario start state: lines A (active), B (finalized), C (active),
cursor on C, next id 3. -/
def sABC : State :=
  { lines := [lineA, lineB, lineC], selected_line := some 2, new_line_id := 3, notifications := 0 }

/-- State after B is relocated to the top (order B, A, C, cursor on A). -/
def sRel : State :=
  { lines := [lineB, lineA, lineC], selected_line := some 0, new_line_id := 3, notifications := 0 }

/-- State after B is then evicted (order A, C). -/
def sAC : State :=
  { lines := [lineA, lineC], selected_line := some 0, new_line_id := 3, notifications := 0 }

/-- Final scenario state: order A, C, D, cursor on D, next id 4. -/
def sFinal : State :=
  { lines := [lineA, lineC, lineD], selected_line := some 3, new_line_id := 4, notifications := 0 }

/-- Commands emitted while relocating B: re-render of the lines now at
indices 0 and 1 (B then A), preserving the visual content. -/
def relocCmds : List Cmd :=
  [Cmd.moveToPreviousLine 2, Cmd.printText textB, Cmd.clearUntilNewLine,
   Cmd.moveToNextLine 1, Cmd.printText textA, Cmd.clearUntilNewLine]

/-- Full command trace of the scenario run of new_line. -/
def finalCmds : List Cmd :=
  relocCmds ++
  [Cmd.moveToNextLine 1, Cmd.printText crlf,
   Cmd.moveToPreviousLine 1, Cmd.printText textD, Cmd.clearUntilNewLine]

section SupportingLemmas

/-- findLine returns an index holding a line with the requested id. -/
theorem findLine_getElem : ∀ (lines : List LineState) (id i : Nat),
    findLine lines id = some i → ∃ l, lines[i]? = some l ∧ l.id = id := by
  intro lines
  induction lines with
  | nil => intro id i h; simp [findLine] at h
  | cons a ls ih =>
    intro id i h
    unfold findLine at h
    split at h
    · obtain rfl : (0 : Nat) = i := by simpa using h
      exact ⟨a, by simp, by assumption⟩
    · simp only [Option.map_eq_some'] at h
      obtain ⟨j, hj, rfl⟩ := h
      obtain ⟨l, hg, hid⟩ := ih id j hj
      exact ⟨l, by simpa using hg, hid⟩

/-- firstFinalized returns an index holding a finalized line. -/
theorem firstFinalized_getElem : ∀ (lines : List LineState) (i : Nat),
    firstFinalized lines = some i → ∃ l, lines[i]? = some l ∧ l.finalized = true := by
  intro lines
  induction lines with
  | nil => intro i h; simp [firstFinalized] at h
  | cons a ls ih =>
    intro i h
    unfold firstFinalized at h
    split at h
    · obtain rfl : (0 : Nat) = i := by simpa using h
      exact ⟨a, by simp, by assumption⟩
    · simp only [Option.map_eq_some'] at h
      obtain ⟨j, hj, rfl⟩ := h
      obtain ⟨l, hg, hfin⟩ := ih j hj
      exact ⟨l, by simpa using hg, hfin⟩

/-- update_line only moves the cursor record: on success the state is the
input state with selected_line set to the updated id. -/
theorem update_line_state {s : State} {id : Nat} {s1 : State} {c : List Cmd}
    (h : update_line s id = some (s1, c)) : s1 = { s with selected_line := some id } := by
  unfold update_line at h
  repeat' split at h
  all_goals simp_all

/-- renderAll leaves the line list, the id counter and the event count
unchanged. -/
theorem renderAll_state : ∀ (ids : List Nat) (s s2 : State) (c : List Cmd),
    renderAll s ids = some (s2, c) →
    s2.lines = s.lines ∧ s2.new_line_id = s.new_line_id ∧
      s2.notifications = s.notifications := by
  intro ids
  induction ids with
  | nil =>
    intro s s2 c h
    simp only [renderAll, Option.some.injEq, Prod.mk.injEq] at h
    rw [h.1]
    exact ⟨rfl, rfl, rfl⟩
  | cons id rest ih =>
    intro s s2 c h
    unfold renderAll at h
    split at h
    · exact absurd h (by simp)
    next s1 c1 heq =>
      split at h
      · exact absurd h (by simp)
      next s2x c2 heq2 =>
        simp only [Option.some.injEq, Prod.mk.injEq] at h
        obtain ⟨rfl, rfl⟩ := h
        have h1 := update_line_state heq
        have h2 := ih _ _ _ heq2
        rw [h1] at h2
        simpa using h2

/-- A list whose entry 0 exists decomposes as that entry followed by the
tail. -/
theorem getElem0_cons {α : Type} {lines : List α} {l0 : α}
    (h : lines[0]? = some l0) : lines = l0 :: lines.tail := by
  cases lines with
  | nil => simp at h
  | cons a t =>
    simp only [List.getElem?_cons_zero, Option.some.injEq] at h
    rw [h]
    rfl

/-- cursorToEnd leaves the line list, the id counter and the event count
unchanged. -/
theorem cursorToEnd_state {s s3 : State} {c : List Cmd}
    (h : cursorToEnd s = some (s3, c)) :
    s3.lines = s.lines ∧ s3.new_line_id = s.new_line_id ∧
      s3.notifications = s.notifications := by
  unfold cursorToEnd at h
  split at h
  · injection h with h1
    injection h1 with h2 h3
    rw [← h2]
    exact ⟨rfl, rfl, rfl⟩
  split at h
  · exact Option.noConfusion h
  · injection h with h1
    injection h1 with h2 h3
    rw [← h2]
    exact ⟨rfl, rfl, rfl⟩

/-- relocateOrWait never breaks out of the loop. -/
theorem relocateOrWait_not_room {s s1 : State}
    (h : relocateOrWait s = some (.room s1)) : False := by
  unfold relocateOrWait at h
  split at h
  · exact StepResult.noConfusion (Option.some.inj h)
  split at h
  · exact Option.noConfusion h
  split at h
  · exact Option.noConfusion h
  · exact StepResult.noConfusion (Option.some.inj h)

/-- relocateOrWait never evicts. -/
theorem relocateOrWait_not_evict {s s1 : State} {c : List Cmd}
    (h : relocateOrWait s = some (.evicted s1 c)) : False := by
  unfold relocateOrWait at h
  split at h
  · exact StepResult.noConfusion (Option.some.inj h)
  split at h
  · exact Option.noConfusion h
  split at h
  · exact Option.noConfusion h
  · exact StepResult.noConfusion (Option.some.inj h)

/-- relocateOrWait waits exactly when no finalized line exists, leaving the
state untouched. -/
theorem relocateOrWait_wait {s s1 : State}
    (h : relocateOrWait s = some (.wait s1)) :
    s1 = s ∧ firstFinalized s.lines = none := by
  unfold relocateOrWait at h
  split at h
  next hff =>
    have e := Option.some.inj h
    injection e with e1
    subst e1
    exact ⟨rfl, hff⟩
  split at h
  · exact Option.noConfusion h
  split at h
  · exact Option.noConfusion h
  · exact StepResult.noConfusion (Option.some.inj h)

/-- Effect of the relocation branch: the first finalized line is moved from
its index to the front, and only the cursor record otherwise changes. -/
theorem relocateOrWait_reloc {s s1 : State} {c : List Cmd}
    (h : relocateOrWait s = some (.relocated s1 c)) :
    ∃ idx line, firstFinalized s.lines = some idx ∧ s.lines[idx]? = some line ∧
      s1.lines = line :: s.lines.eraseIdx idx ∧
      s1.new_line_id = s.new_line_id ∧ s1.notifications = s.notifications := by
  unfold relocateOrWait at h
  split at h
  · exact StepResult.noConfusion (Option.some.inj h)
  next idx hff =>
    split at h
    · exact Option.noConfusion h
    next line hget =>
      split at h
      · exact Option.noConfusion h
      next s2x c2 heq =>
        simp only [Option.some.injEq, StepResult.relocated.injEq] at h
        obtain ⟨rfl, rfl⟩ := h
        have h2 := renderAll_state _ _ _ _ heq
        exact ⟨idx, line, hff, hget, by simpa using h2.1, by simpa using h2.2.1,
          by simpa using h2.2.2⟩

/-- The loop breaks exactly with an unchanged state in which the line count
is below the terminal height. -/
theorem step_room {h : Nat} {s s1 : State}
    (hh : new_line_step h s = some (.room s1)) :
    s1 = s ∧ s.lines.length < h := by
  unfold new_line_step at hh
  split at hh
  · exact Option.noConfusion hh
  split at hh
  next hlt =>
    have e := Option.some.inj hh
    injection e with e1
    subst e1
    exact ⟨rfl, hlt⟩
  split at hh
  · exact (relocateOrWait_not_room hh).elim
  next line0 hget =>
    split at hh
    next hfin =>
      split at hh
      next hsel =>
        split at hh
        · exact StepResult.noConfusion (Option.some.inj hh)
        · exact StepResult.noConfusion (Option.some.inj hh)
      next hsel => exact StepResult.noConfusion (Option.some.inj hh)
    next hfin => exact (relocateOrWait_not_room hh).elim

/-- Eviction removes exactly the topmost line, which is finalized, and
touches neither the id counter nor the event count. -/
theorem step_evict {h : Nat} {s s1 : State} {c : List Cmd}
    (hh : new_line_step h s = some (.evicted s1 c)) :
    ∃ l0, s.lines = l0 :: s1.lines ∧ l0.finalized = true ∧
      s1.new_line_id = s.new_line_id ∧ s1.notifications = s.notifications := by
  unfold new_line_step at hh
  split at hh
  · exact Option.noConfusion hh
  split at hh
  · exact StepResult.noConfusion (Option.some.inj hh)
  split at hh
  · exact (relocateOrWait_not_evict hh).elim
  next line0 hget =>
    split at hh
    next hfin =>
      split at hh
      next hsel =>
        split at hh
        next nxt hget1 =>
          have e := Option.some.inj hh
          injection e with e1 e2
          subst e1
          exact ⟨line0, getElem0_cons hget, hfin, rfl, rfl⟩
        next hget1 =>
          have e := Option.some.inj hh
          injection e with e1 e2
          subst e1
          exact ⟨line0, getElem0_cons hget, hfin, rfl, rfl⟩
      next hsel =>
        have e := Option.some.inj hh
        injection e with e1 e2
        subst e1
        exact ⟨line0, getElem0_cons hget, hfin, rfl, rfl⟩
    next hfin => exact (relocateOrWait_not_evict hh).elim

/-- The wait branch leaves the state untouched and occurs only when no
finalized line exists. -/
theorem step_wait {h : Nat} {s s1 : State}
    (hh : new_line_step h s = some (.wait s1)) :
    s1 = s ∧ firstFinalized s.lines = none := by
  unfold new_line_step at hh
  split at hh
  · exact Option.noConfusion hh
  split at hh
  · exact StepResult.noConfusion (Option.some.inj hh)
  split at hh
  · exact relocateOrWait_wait hh
  next line0 hget =>
    split at hh
    next hfin =>
      split at hh
      next hsel =>
        split at hh
        · exact StepResult.noConfusion (Option.some.inj hh)
        · exact StepResult.noConfusion (Option.some.inj hh)
      next hsel => exact StepResult.noConfusion (Option.some.inj hh)
    next hfin => exact relocateOrWait_wait hh

/-- The relocation branch of one loop iteration, seen from the step. -/
theorem step_reloc {h : Nat} {s s1 : State} {c : List Cmd}
    (hh : new_line_step h s = some (.relocated s1 c)) :
    ∃ idx line, firstFinalized s.lines = some idx ∧ s.lines[idx]? = some line ∧
      s1.lines = line :: s.lines.eraseIdx idx ∧
      s1.new_line_id = s.new_line_id ∧ s1.notifications = s.notifications := by
  unfold new_line_step at hh
  split at hh
  · exact Option.noConfusion hh
  split at hh
  · exact StepResult.noConfusion (Option.some.inj hh)
  split at hh
  · exact relocateOrWait_reloc hh
  next line0 hget =>
    split at hh
    next hfin =>
      split at hh
      next hsel =>
        split at hh
        · exact StepResult.noConfusion (Option.some.inj hh)
        · exact StepResult.noConfusion (Option.some.inj hh)
      next hsel => exact StepResult.noConfusion (Option.some.inj hh)
    next hfin => exact relocateOrWait_reloc hh


/-- Moving the element at a valid index to the front is a permutation. -/
theorem cons_eraseIdx_perm {α : Type} (lines : List α) (idx : Nat) (line : α)
    (h : lines[idx]? = some line) : (line :: lines.eraseIdx idx).Perm lines := by
  obtain ⟨hlt, hget⟩ := List.getElem?_eq_some_iff.1 h
  rw [List.eraseIdx_eq_take_drop_succ]
  have hdecomp : lines.take idx ++ line :: lines.drop (idx + 1) = lines := by
    conv_rhs => rw [← List.take_append_drop idx lines]
    rw [List.drop_eq_getElem_cons hlt, hget]
  have hperm : (line :: (lines.take idx ++ lines.drop (idx + 1))).Perm
      (lines.take idx ++ line :: lines.drop (idx + 1)) := List.perm_middle.symm
  rw [hdecomp] at hperm
  exact hperm

/-- Overwriting an entry with one carrying the same id leaves the id
sequence unchanged. -/
theorem map_id_set (lines : List LineState) (i : Nat) (l a : LineState)
    (h : lines[i]? = some l) (hid : a.id = l.id) :
    (lines.set i a).map (fun x => x.id) = lines.map (fun x => x.id) := by
  apply List.ext_getElem?
  intro j
  simp only [List.getElem?_map]
  by_cases hji : j = i
  · subst hji
    have hlt : j < lines.length := (List.getElem?_eq_some_iff.1 h).1
    rw [List.getElem?_set_self (by simpa using hlt), h]
    simp [hid]
  · rw [List.getElem?_set_ne (Ne.symm hji)]

/-- Whenever the reclamation loop breaks, the line count is strictly below
the terminal height. -/
theorem makeRoom_room_lt : ∀ (fuel height : Nat) (s : State) (acc : List Cmd)
    (s1 : State) (c : List Cmd),
    makeRoom height fuel s acc = some (.room s1 c) → s1.lines.length < height := by
  intro fuel
  induction fuel with
  | zero => intro height s acc s1 c hh; simp [makeRoom] at hh
  | succ n ih =>
    intro height s acc s1 c hh
    unfold makeRoom at hh
    split at hh
    · simp at hh
    next s2 heq =>
      simp only [Option.some.injEq, LoopResult.room.injEq] at hh
      obtain ⟨rfl, rfl⟩ := hh
      obtain ⟨rfl, hlt⟩ := step_room heq
      exact hlt
    next s2 c2 heq => exact ih height s2 (acc ++ c2) s1 c hh
    next s2 c2 heq => exact ih height s2 (acc ++ c2) s1 c hh
    next s2 heq => simp at hh

/-- The id-allocation loop only returns ids used by no current line. -/
theorem allocGo_fresh (lines : List LineState) :
    ∀ (fuel id0 i c2 : Nat), allocGo lines fuel id0 = some (i, c2) →
      ∀ l ∈ lines, l.id ≠ i := by
  intro fuel
  induction fuel with
  | zero => intro id0 i c2 h; simp [allocGo] at h
  | succ n ih =>
    intro id0 i c2 h
    unfold allocGo at h
    split at h
    · exact ih (wrapInc id0) i c2 h
    next hany =>
      have e := Option.some.inj h
      injection e with e1 e2
      subst e1
      intro l hl heq
      apply hany
      rw [List.any_eq_true]
      exact ⟨l, hl, by simp [heq]⟩

/-- If the allocation loop exhausts its fuel, every candidate id it tried
is the id of some current line. -/
theorem allocGo_none_mem (lines : List LineState) :
    ∀ (fuel c : Nat), c < USIZE → allocGo lines fuel c = none →
      ∀ k, k < fuel → (c + k) % USIZE ∈ lines.map (fun l => l.id) := by
  intro fuel
  induction fuel with
  | zero => intro c hc h k hk; exact absurd hk (Nat.not_lt_zero k)
  | succ n ih =>
    intro c hc h k hk
    unfold allocGo at h
    split at h
    next hany =>
      cases k with
      | zero =>
        rw [Nat.add_zero, Nat.mod_eq_of_lt hc]
        rw [List.any_eq_true] at hany
        obtain ⟨l, hl, hbeq⟩ := hany
        rw [List.mem_map]
        exact ⟨l, hl, by simpa using hbeq⟩
      | succ k2 =>
        have hwlt : wrapInc c < USIZE := Nat.mod_lt _ (by norm_num [USIZE])
        have hrec := ih (wrapInc c) hwlt h k2 (by omega)
        have hmod : ((c + 1) % USIZE + k2) % USIZE = (c + (k2 + 1)) % USIZE := by
          rw [Nat.mod_add_mod]
          congr 1
          omega
        rw [← hmod]
        exact hrec
    · exact Option.noConfusion h

/-- Termination of the id-allocation loop: among lines.length + 1
consecutive wrapped candidates at least one id is unused, so the loop
always succeeds within that fuel.  The bound lines.length + 1 ≤ USIZE holds
for every Vec on the modelled target. -/
theorem allocGo_isSome (lines : List LineState) (c : Nat) (hc : c < USIZE)
    (hlen : lines.length + 1 ≤ USIZE) :
    (allocGo lines (lines.length + 1) c).isSome = true := by
  by_contra hns
  have hnone : allocGo lines (lines.length + 1) c = none := by
    cases hh : allocGo lines (lines.length + 1) c with
    | none => rfl
    | some p => rw [hh] at hns; simp at hns
  have hmem := allocGo_none_mem lines (lines.length + 1) c hc hnone
  have hinj : Set.InjOn (fun k => (c + k) % USIZE)
      (Finset.range (lines.length + 1)) := by
    intro a ha b hb hab
    simp only [Finset.coe_range, Set.mem_Iio] at ha hb
    have hmodeq : a ≡ b [MOD USIZE] :=
      Nat.ModEq.add_left_cancel' c hab
    rwa [Nat.ModEq, Nat.mod_eq_of_lt (by omega), Nat.mod_eq_of_lt (by omega)] at hmodeq
  have hcard : (Finset.image (fun k => (c + k) % USIZE)
      (Finset.range (lines.length + 1))).card = lines.length + 1 := by
    rw [Finset.card_image_of_injOn hinj, Finset.card_range]
  have hsub : Finset.image (fun k => (c + k) % USIZE)
      (Finset.range (lines.length + 1)) ⊆ (lines.map (fun l => l.id)).toFinset := by
    intro x hx
    simp only [Finset.mem_image, Finset.mem_range] at hx
    obtain ⟨k, hk, rfl⟩ := hx
    rw [List.mem_toFinset]
    exact hmem k hk
  have hle := Finset.card_le_card hsub
  have hlen2 : (lines.map (fun l => l.id)).toFinset.card ≤ lines.length := by
    have h1 := List.toFinset_card_le (lines.map (fun l => l.id))
    rwa [List.length_map] at h1
  omega

end SupportingLemmas

section Theorems

/-- C10: for every numerator n, fraction(n, 0) = 100: the checked division
by a zero denominator yields none, which unwrap_or maps to 100 regardless
of the numerator. -/
theorem fraction_zero_denom : ∀ num : Nat, Percent.fraction num 0 = 100 :=
  fun _ => rfl

/-- C8 counterexample: fraction is not floor(100*num/denom) saturated to
100 for every input: at num = 2^62, denom = 2^64 - 1 the saturating
multiplication truncates the product to usize::MAX, so the code yields 1
while the claimed formula yields 25. -/
theorem fraction_not_pure_floor :
    Percent.fraction (2 ^ 62) (2 ^ 64 - 1) ≠ min (100 * 2 ^ 62 / (2 ^ 64 - 1)) 100 := by
  decide

/-- C8 (amended): fraction(num, denom) equals floor(100*num/denom)
saturated to 100 whenever 100*num does not overflow usize (the claimed
equation, restricted by the saturating multiplication); the listed sample
values hold, and the result is always in [0, 100]. -/
theorem fraction_saturated_spec :
    (∀ num denom : Nat, denom ≠ 0 → num * 100 ≤ USIZEMAX →
      Percent.fraction num denom = min (100 * num / denom) 100) ∧
    Percent.fraction 0 0 = 100 ∧ Percent.fraction 1 3 = 33 ∧
    Percent.fraction 100 100 = 100 ∧ Percent.fraction 5 2 = 100 ∧
    (∀ num denom : Nat, Percent.fraction num denom ≤ 100) := by
  refine ⟨?_, by decide, by decide, by decide, by decide, ?_⟩
  · intro num denom hd hle
    simp only [Percent.fraction, checked_div, saturating_mul, if_neg hd, Option.getD_some,
      Nat.min_eq_left hle]
    rw [Nat.mul_comm num 100, Nat.min_def]
  · intro num denom
    simp only [Percent.fraction]
    split <;> omega

/-- C8 witness: the general clause evaluated at (1, 3). -/
theorem fraction_saturated_spec_w :
    Percent.fraction 1 3 = min (100 * 1 / 3) 100 :=
  fraction_saturated_spec.1 1 3 (by decide) (by decide)

/-- C6: on waking from the finalization channel, a normal receipt and a
lagged (missed-notification) receipt both make the reclamation loop retry,
while a closed channel panics instead of being swallowed. -/
theorem wake_semantics :
    handleWake RecvResult.ok = WakeBehavior.retry ∧
    (∀ missed : Nat, handleWake (RecvResult.lagged missed) = WakeBehavior.retry) ∧
    handleWake RecvResult.closed = WakeBehavior.abort :=
  ⟨rfl, fun _ => rfl, rfl⟩

/-- C9 counterexample: Cli::new succeeds even in an environment where the
terminal height cannot be determined, as long as raw mode can be enabled:
the constructor never consults the terminal height (its body only calls
enable_raw_mode), so the claim that open() fails when the height cannot be
determined is false. -/
theorem cliNew_ignores_height :
    cliNew (Except.ok ()) (Except.error TermError.err) = Except.ok initialState :=
  rfl

/-- C9 (amended): open() enables raw terminal mode and initializes an empty
registry; it fails exactly when raw mode cannot be enabled.  No row budget
is stored at construction and the terminal height is not consulted; the
height is sampled during each new_line loop iteration instead. -/
theorem cliNew_spec :
    (∀ heightRes, cliNew (Except.ok ()) heightRes = Except.ok initialState) ∧
    (∀ e heightRes, cliNew (Except.error e) heightRes = Except.error e) ∧
    initialState.lines = [] ∧ initialState.selected_line = none ∧
    initialState.new_line_id = 0 ∧ initialState.notifications = 0 :=
  ⟨fun _ => rfl, fun _ _ => rfl, rfl, rfl, rfl, rfl⟩

/-- C1: eviction only ever removes the line at sequence index 0 and only
when that line is finalized; no branch of the reclamation loop and no other
operation removes any other line: the room and wait branches leave the
lines unchanged, relocation merely permutes them, and replace and handle
release preserve the id sequence. -/
theorem eviction_topmost_finalized :
    (∀ h s s1 c, new_line_step h s = some (.evicted s1 c) →
      ∃ l0, s.lines = l0 :: s1.lines ∧ l0.finalized = true) ∧
    (∀ h s s1, new_line_step h s = some (.room s1) → s1.lines = s.lines) ∧
    (∀ h s s1, new_line_step h s = some (.wait s1) → s1.lines = s.lines) ∧
    (∀ h s s1 c, new_line_step h s = some (.relocated s1 c) → s1.lines.Perm s.lines) ∧
    (∀ s id t s1 c, replace s id t = some (s1, c) →
      s1.lines.map (fun l => l.id) = s.lines.map (fun l => l.id)) ∧
    (∀ s id s1, LineHandle.drop_async s id = some s1 →
      s1.lines.map (fun l => l.id) = s.lines.map (fun l => l.id)) := by
  refine ⟨?_, ?_, ?_, ?_, ?_, ?_⟩
  · intro h s s1 c hh
    obtain ⟨l0, hsh, hfin, -, -⟩ := step_evict hh
    exact ⟨l0, hsh, hfin⟩
  · intro h s s1 hh
    rw [(step_room hh).1]
  · intro h s s1 hh
    rw [(step_wait hh).1]
  · intro h s s1 c hh
    obtain ⟨idx, line, -, hget, hlines, -, -⟩ := step_reloc hh
    rw [hlines]
    exact cons_eraseIdx_perm s.lines idx line hget
  · intro s id t s1 c hh
    unfold replace at hh
    split at hh
    · exact Option.noConfusion hh
    next i hf =>
      split at hh
      · exact Option.noConfusion hh
      next l hget =>
        rw [update_line_state hh]
        exact map_id_set s.lines i l _ hget rfl
  · intro s id s1 hh
    unfold LineHandle.drop_async at hh
    split at hh
    · exact Option.noConfusion hh
    next i hf =>
      split at hh
      · exact Option.noConfusion hh
      next l hget =>
        have e := Option.some.inj hh
        subst e
        exact map_id_set s.lines i l _ hget rfl

/-- C1 witness: the eviction clause applied to the scenario state with the
finalized line B on top. -/
theorem eviction_topmost_finalized_w :
    ∃ l0, sRel.lines = l0 :: sAC.lines ∧ l0.finalized = true :=
  eviction_topmost_finalized.1 3 sRel sAC [] (by decide)

/-- C4: update_line computes self_row as the index of id and cursor_row as
the index of the selected line (or len(sequence) when none is selected);
with diff = self_row - cursor_row it moves the cursor up diff ows when
diff < 0, to column 0 with no vertical motion when diff = 0, and down diff
rows when diff > 0, in each case printing the line text and clearing the
rest of the row; and every successful call leaves cursor_line = Some(id). -/
theorem update_line_spec :
    (∀ s id self_idx line cursor_row,
      findLine s.lines id = some self_idx →
      s.lines[self_idx]? = some line →
      selectedIdx s = some cursor_row →
      update_line s id = some ({ s with selected_line := some id },
        if (self_idx : Int) - (cursor_row : Int) < 0 then
          [Cmd.moveToPreviousLine (cursor_row - self_idx),
           Cmd.printText line.text, Cmd.clearUntilNewLine]
        else if (self_idx : Int) - (cursor_row : Int) = 0 then
          [Cmd.moveToColumn 0, Cmd.printText line.text, Cmd.clearUntilNewLine]
        else
          [Cmd.moveToNextLine (self_idx - cursor_row),
           Cmd.printText line.text, Cmd.clearUntilNewLine])) ∧
    (∀ s id s1 c, update_line s id = some (s1, c) → s1.selected_line = some id) := by
  constructor
  · intro s id self_idx line cursor_row h1 h2 h3
    simp only [update_line, h1, h2, h3]
    rcases Nat.lt_trichotomy self_idx cursor_row with hlt | heq | hgt
    · rw [if_pos hlt, if_pos (show (self_idx : Int) - (cursor_row : Int) < 0 by omega)]
    · rw [if_neg (by omega : ¬ self_idx < cursor_row),
          if_neg (by omega : ¬ cursor_row < self_idx),
          if_neg (show ¬ ((self_idx : Int) - (cursor_row : Int) < 0) by omega),
          if_pos (show (self_idx : Int) - (cursor_row : Int) = 0 by omega)]
    · rw [if_neg (by omega : ¬ self_idx < cursor_row), if_pos hgt,
          if_neg (show ¬ ((self_idx : Int) - (cursor_row : Int) < 0) by omega),
          if_neg (show ¬ ((self_idx : Int) - (cursor_row : Int) = 0) by omega)]
  · intro s id s1 c hh
    rw [update_line_state hh]

/-- C4 witness: update_line on line A of the scenario state (cursor on C,
so diff = -2 and the cursor moves up two rows). -/
theorem update_line_spec_w :
    update_line sABC 0 = some ({ sABC with selected_line := some 0 },
      [Cmd.moveToPreviousLine 2, Cmd.printText textA, Cmd.clearUntilNewLine]) := by
  have h := update_line_spec.1 sABC 0 0 lineA 2 (by decide) (by decide) (by decide)
  rw [if_pos (show ((0 : Nat) : Int) - ((2 : Nat) : Int) < 0 by decide)] at h
  exact h

/-- C5: the synchronous Drop release and the suspension-capable drop_async
release are the same state transformation: for any registry containing the
handle's line they set exactly that line's finalized flag to true, leave
its id and text and every other line unchanged, broadcast one finalization
event, and change nothing else. -/
theorem drop_paths_equiv :
    ∀ s id i, findLine s.lines id = some i →
      LineHandle.dropSync s id = LineHandle.drop_async s id ∧
      ∃ s1, LineHandle.drop_async s id = some s1 ∧
        s1.notifications = s.notifications + 1 ∧
        s1.selected_line = s.selected_line ∧
        s1.new_line_id = s.new_line_id ∧
        s1.lines.length = s.lines.length ∧
        (∀ j, j ≠ i → s1.lines[j]? = s.lines[j]?) ∧
        (∀ l, s.lines[i]? = some l →
          s1.lines[i]? = some { l with finalized := true } ∧ l.id = id) := by
  intro s id i hf
  refine ⟨rfl, ?_⟩
  obtain ⟨l, hget, hid⟩ := findLine_getElem s.lines id i hf
  refine ⟨{ s with
            lines := s.lines.set i ({ l with finalized := true }),
            notifications := s.notifications + 1 }, ?_, rfl, rfl, rfl, by simp, ?_, ?_⟩
  · simp only [LineHandle.drop_async, hf, hget]
  · intro j hj
    exact List.getElem?_set_ne (Ne.symm hj)
  · intro l2 hl2
    rw [hget] at hl2
    injection hl2 with e
    subst e
    have hlt : i < s.lines.length := (List.getElem?_eq_some_iff.1 hget).1
    exact ⟨List.getElem?_set_self hlt, hid⟩

/-- C5 witness: both release paths on line B of the scenario state. -/
theorem drop_paths_equiv_w :
    LineHandle.dropSync sABC 1 = LineHandle.drop_async sABC 1 :=
  (drop_paths_equiv sABC 1 1 (by decide)).1

/-- C2: when the reclamation loop finds no finalized line on top but one at
index idx, it removes it there, reinserts it at index 0 and re-renders, in
order, the lines now at indices 0 through idx, then retries; and in the
A (active), B (finalized), C (active) scenario with a full budget of 3,
requesting D relocates B to the top (order B, A, C with B and A
re-rendered), then evicts B, and ends with order A, C, D. -/
theorem relocation_behavior :
    (∀ h s idx line s1 cmds,
      s.lines.length ≤ 65535 →
      ¬ s.lines.length < h →
      (s.lines[0]?.all fun l0 => !l0.finalized) = true →
      firstFinalized s.lines = some idx →
      s.lines[idx]? = some line →
      renderAll { s with lines := line :: s.lines.eraseIdx idx }
          (((line :: s.lines.eraseIdx idx).take (idx + 1)).map (fun l => l.id)) =
        some (s1, cmds) →
      new_line_step h s = some (.relocated s1 cmds) ∧
        s1.lines = line :: s.lines.eraseIdx idx) ∧
    new_line_step 3 sABC = some (.relocated sRel relocCmds) ∧
    new_line_step 3 sRel = some (.evicted sAC []) ∧
    new_line 10 3 sABC textD = some (.ok sFinal finalCmds 3) := by
  refine ⟨?_, by decide, by decide, by decide⟩
  intro h s idx line s1 cmds hlen hnr hnf hff hget hra
  constructor
  · unfold new_line_step
    rw [if_neg (by omega), if_neg hnr]
    cases h0 : s.lines[0]? with
    | none => simp only [relocateOrWait, hff, hget, hra]
    | some l0 =>
      rw [h0] at hnf
      simp only [Option.all_some, Bool.not_eq_true'] at hnf
      simp only [hnf, Bool.false_eq_true, if_false, relocateOrWait, hff, hget, hra]
  · have h2 := renderAll_state _ _ _ _ hra
    simpa using h2.1

/-- C2 witness: the general relocation clause applied to the scenario
state, relocating B from index 1. -/
theorem relocation_behavior_w :
    new_line_step 3 sABC = some (.relocated sRel relocCmds) ∧
      sRel.lines = lineB :: sABC.lines.eraseIdx 1 :=
  relocation_behavior.1 3 sABC 1 lineB sRel relocCmds (by decide) (by decide)
    (by decide) (by decide) (by decide) (by decide)

/-- C3: the registry never exceeds the row budget: the reclamation loop
breaks only once the line count is strictly below the terminal height, a
completed new_line call inserted exactly one line and ends with at most
height lines, and replace and handle release preserve the count. -/
theorem row_budget_invariant :
    (∀ fuel height s t s1 c id, new_line fuel height s t = some (.ok s1 c id) →
      s1.lines.length ≤ height) ∧
    (∀ height fuel s acc s1 c, makeRoom height fuel s acc = some (.room s1 c) →
      s1.lines.length < height) ∧
    (∀ s id t s1 c, replace s id t = some (s1, c) →
      s1.lines.length = s.lines.length) ∧
    (∀ s id s1, LineHandle.drop_async s id = some s1 →
      s1.lines.length = s.lines.length) := by
  refine ⟨?_, ?_, ?_, ?_⟩
  · intro fuel height s t s1 c id h
    unfold new_line at h
    simp only [bind, Option.bind_eq_some] at h
    obtain ⟨r, hmr, h⟩ := h
    cases r with
    | fuelOut => simp at h
    | suspendedAt s2 cm => simp at h
    | room s2 cm0 =>
      have hlt := makeRoom_room_lt fuel height s [] s2 cm0 hmr
      simp only [Option.bind_eq_some] at h
      obtain ⟨⟨idv, counter⟩, hai, h⟩ := h
      obtain ⟨⟨s3, cmds1⟩, hce, h⟩ := h
      obtain ⟨⟨s5, cmds2⟩, hul, h⟩ := h
      have e := Option.some.inj h
      injection e with e1 e2 e3
      subst e1
      have h5 := update_line_state hul
      have h3 := (cursorToEnd_state hce).1
      rw [h5]
      simp only [List.length_append, List.length_cons, List.length_nil]
      have h3len : s3.lines.length = s2.lines.length := by rw [h3]
      omega
  · intro height fuel s acc s1 c h
    exact makeRoom_room_lt fuel height s acc s1 c h
  · intro s id t s1 c hh
    unfold replace at hh
    split at hh
    · exact Option.noConfusion hh
    next i hf =>
      split at hh
      · exact Option.noConfusion hh
      next l hget =>
        rw [update_line_state hh]
        simp
  · intro s id s1 hh
    unfold LineHandle.drop_async at hh
    split at hh
    · exact Option.noConfusion hh
    next i hf =>
      split at hh
      · exact Option.noConfusion hh
      next l hget =>
        have e := Option.some.inj hh
        subst e
        simp

/-- C3 witness: the scenario run of new_line ends with 3 = height lines. -/
theorem row_budget_invariant_w : sFinal.lines.length ≤ 3 :=
  row_budget_invariant.1 10 3 sABC textD sFinal finalCmds 3 (by decide)

/-- C7: live line ids stay pairwise distinct: the allocation loop returns
an id used by no current line and always terminates within
lines.length + 1 wrapped candidates, appending the new line preserves
distinctness of the id sequence, and the evicting and relocating loop
branches preserve it as well. -/
theorem live_ids_distinct :
    (∀ lines counter id counter2, allocId lines counter = some (id, counter2) →
      ∀ l ∈ lines, l.id ≠ id) ∧
    (∀ lines counter, counter < USIZE → lines.length + 1 ≤ USIZE →
      (allocId lines counter).isSome = true) ∧
    (∀ lines counter id counter2 t, allocId lines counter = some (id, counter2) →
      (lines.map (fun l => l.id)).Nodup →
      ((lines ++ [{ id := id, finalized := false, text := t : LineState }]).map
        (fun l => l.id)).Nodup) ∧
    (∀ h s s1 c, new_line_step h s = some (.evicted s1 c) →
      (s.lines.map (fun l => l.id)).Nodup → (s1.lines.map (fun l => l.id)).Nodup) ∧
    (∀ h s s1 c, new_line_step h s = some (.relocated s1 c) →
      (s.lines.map (fun l => l.id)).Nodup → (s1.lines.map (fun l => l.id)).Nodup) := by
  refine ⟨?_, ?_, ?_, ?_, ?_⟩
  · intro lines counter id counter2 hal
    exact allocGo_fresh lines (lines.length + 1) counter id counter2 hal
  · intro lines counter hc hlen
    exact allocGo_isSome lines counter hc hlen
  · intro lines counter id counter2 t hal hnd
    rw [List.map_append]
    rw [List.nodup_append]
    refine ⟨hnd, List.nodup_singleton _, ?_⟩
    intro a ha hb
    simp only [List.map_cons, List.map_nil, List.mem_singleton] at hb
    subst hb
    rw [List.mem_map] at ha
    obtain ⟨l, hl, hid⟩ := ha
    exact allocGo_fresh lines (lines.length + 1) counter a counter2 hal l hl hid
  · intro h s s1 c hh hnd
    obtain ⟨l0, hsh, -, -, -⟩ := step_evict hh
    rw [hsh] at hnd
    simp only [List.map_cons] at hnd
    exact hnd.of_cons
  · intro h s s1 c hh hnd
    obtain ⟨idx, line, -, hget, hlines, -, -⟩ := step_reloc hh
    have hperm : s1.lines.Perm s.lines := by
      rw [hlines]
      exact cons_eraseIdx_perm s.lines idx line hget
    exact ((hperm.map (fun l => l.id)).nodup_iff).2 hnd

/-- C7 witness: allocation at the scenario state returns the fresh id 3,
distinct from every live id, and the termination bound holds there. -/
theorem live_ids_distinct_w :
    lineA.id ≠ 3 ∧ (allocId [lineA, lineB, lineC] 3).isSome = true :=
  ⟨live_ids_distinct.1 [lineA, lineB, lineC] 3 3 4 (by decide) lineA (by decide),
   live_ids_distinct.2.1 [lineA, lineB, lineC] 3 (by decide) (by decide)⟩

end Theorems

end Gres
